import Mathlib

/-!
Verification of the py-polars DataFrame binding (`src/py-polars/src/dataframe.rs`)
against its natural-language specification.

The binding file under `src/` is embedded directly.  The polars core operations
it calls (`DataFrame::filter`, `DataFrame::take`, `DataFrame::groupby`,
`GroupBy` aggregations, `DataFrame::sort`, `DataFrame::downsample`,
`DataFrame::is_unique`, join internals) are not part of the sources; each such
definition is marked `Modelled from the spec:` and follows the specification's
description of that operation.

Machine values are modelled exactly: cell values are `Int` / `String` / `Bool` /
`Rat` (for mean and variance results), `Rat`-radicands for standard deviations,
integer lists for list-valued aggregation cells, and an explicit `null`.
A Rust `panic!` is a distinct outcome from a typed error (`PyResult::Err`);
the outcome type `Outcome` separates the two.
-/

namespace PolarsSpec

/-- A single cell value of a column.  `sqrtv q` denotes the (possibly
irrational) square root of the rational `q`, used for the standard-deviation
reduction; `ilist` holds list-valued cells with integer content (the
`agg_list` and `groups` aggregation outputs). -/
inductive Value where
  | int : Int → Value
  | str : String → Value
  | bool : Bool → Value
  | rat : Rat → Value
  | sqrtv : Rat → Value
  | ilist : List Int → Value
  | null : Value
deriving DecidableEq

/-- A row of a table: one cell per column, in column order. -/
abbrev Row := List Value

/-- A named column.  Chunks are modelled coalesced: the spec's invariant fixes
the total element count across chunks, and every operation the claims touch is
chunk-agnostic, so a column is its name and its element sequence (nulls are the
explicit `Value.null`). -/
structure Column where
  name : String
  values : List Value
deriving DecidableEq

/-- A table: an ordered collection of columns (the spec's Table). -/
structure Table where
  columns : List Column
deriving DecidableEq

/-- The error taxonomy of the spec (§7).  `Other` and `RuntimeError` carry the
message strings the binding builds with `format!` / `new_err`. -/
inductive PError where
  | ColumnNotFound : PError
  | LengthMismatch : PError
  | SchemaMismatch : PError
  | ShapeMismatch : PError
  | TypeMismatch : PError
  | IndexOutOfBounds : PError
  | InvalidArgument : PError
  | UnknownAggregation : PError
  | CallbackFailed : PError
  | Other : String → PError
  | RuntimeError : String → PError
deriving DecidableEq

/-- The observable outcome of a binding call: a value (`PyResult::Ok`), a typed
recoverable error (`PyResult::Err`), or a Rust `panic` (which is not a typed
result and escapes the `PyResult` channel). -/
inductive Outcome (α : Type) where
  | ok : α → Outcome α
  | err : PError → Outcome α
  | panic : String → Outcome α
deriving DecidableEq

/-- Lift the typed-error monad into the outcome type: an `Except` value never
panics. -/
def outOf {α : Type} : Except PError α → Outcome α
  | .ok a => .ok a
  | .error e => .err e

def Outcome.isOk {α : Type} : Outcome α → Bool
  | .ok _ => true
  | _ => false

def Outcome.isErr {α : Type} : Outcome α → Bool
  | .err _ => true
  | _ => false

/-- Height of a table: the element count of its first column (all columns agree
on a well-formed table); a width-0 table has height 0. -/
def Table.height (t : Table) : Nat :=
  match t.columns with
  | [] => 0
  | c :: _ => c.values.length

/-- The Table invariant: all columns have the table's height. -/
def WellFormed (t : Table) : Prop :=
  ∀ c ∈ t.columns, c.values.length = t.height

instance (t : Table) : Decidable (WellFormed t) := by
  unfold WellFormed; infer_instance

/-- Name-based column lookup: the first column with the given name (duplicate
names resolve to the first match, §3/§9). -/
def findCol (t : Table) (name : String) : Option Column :=
  t.columns.find? (fun c => c.name = name)

def hasCol (t : Table) (name : String) : Bool :=
  (findCol t name).isSome

/-- The values of the first column with the given name. -/
def colValuesFirst (t : Table) (name : String) : Option (List Value) :=
  (findCol t name).map Column.values

/-- Row `i` of a table, as the list of the columns' `i`-th elements. -/
def tableRow (t : Table) (i : Nat) : Row :=
  t.columns.map (fun c => c.values.getD i Value.null)

/-- The rows of the first `n` indices of a column list (column-major to
row-major view). -/
def rowsN (n : Nat) (cols : List (List Value)) : List Row :=
  (List.range n).map (fun i => cols.map (fun vs => vs.getD i Value.null))

/-- All rows of a table. -/
def tableRows (t : Table) : List Row :=
  rowsN t.height (t.columns.map Column.values)

/-! ## filter -/

/-- Keep the elements of `vs` at positions where `mask` is `true`. -/
def applyMask (vs : List Value) (mask : List Bool) : List Value :=
  (vs.zip mask).filterMap (fun p => if p.2 then some p.1 else none)

/-- Modelled from the spec: core `DataFrame::filter` (not under src/).  Fails
with `LengthMismatch` when the mask length differs from the table height;
otherwise keeps exactly the rows at `true` positions, preserving order (§4.1).
Null mask entries are not modelled (the claims quantify over boolean masks). -/
def coreFilter (t : Table) (mask : List Bool) : Except PError Table :=
  if mask.length = t.height then
    .ok ⟨t.columns.map (fun c => ⟨c.name, applyMask c.values mask⟩)⟩
  else
    .error .LengthMismatch

/-- The `series.bool()` dtype cast of the binding: succeeds exactly when every
element of the mask series is a boolean value. -/
def asBoolMask : List Value → Option (List Bool)
  | [] => some []
  | .bool b :: vs => (asBoolMask vs).map (fun m => b :: m)
  | _ => none

/-- The binding `PyDataFrame::filter`: casts the mask series to boolean
(`RuntimeError` otherwise, per the source's `Expected a boolean mask`) and
runs the core filter. -/
def PyDataFrame.filter (t : Table) (mask : List Value) : Outcome Table :=
  match asBoolMask mask with
  | some m => outOf (coreFilter t m)
  | none => .err (.RuntimeError "Expected a boolean mask")

/-! ## take -/

/-- Modelled from the spec: core `DataFrame::take` (not under src/).  The
spec (§4.1) makes an out-of-range index a *fatal* error, and the binding's
`take` returns `Self` with no error channel, so in the code an out-of-range
index can only surface as an unchecked panic; it is modelled as the `panic`
outcome.  In-range indices gather rows in index order, duplicates included. -/
def coreTake (t : Table) (indices : List Nat) : Outcome Table :=
  if indices.all (fun i => i < t.height) then
    .ok ⟨t.columns.map (fun c => ⟨c.name, indices.map (fun i => c.values.getD i Value.null)⟩)⟩
  else
    .panic "take indices are out of bounds"

/-- The binding `PyDataFrame::take`: forwards to core take.  Its Rust
signature is `fn take(&self, indices: Vec<usize>) -> Self` — no `PyResult`,
hence no typed error can reach the caller. -/
def PyDataFrame.take (t : Table) (indices : List Nat) : Outcome Table :=
  coreTake t indices

/-! ## is_unique / is_duplicated -/

/-- Modelled from the spec: core `DataFrame::is_unique` (not under src/) —
the boolean mask that is true exactly at rows whose full row value occurs
exactly once in the table. -/
def coreIsUnique (t : Table) : List Bool :=
  let rws := tableRows t
  rws.map (fun r => rws.count r = 1)

/-- The binding `PyDataFrame::is_unique`: returns the core unique mask. -/
def PyDataFrame.is_unique (t : Table) : List Bool :=
  coreIsUnique t

/-- The binding `PyDataFrame::is_duplicated`: the source calls
`self.df.is_unique()` — the same core function as `is_unique` — so it returns
the identical mask. -/
def PyDataFrame.is_duplicated (t : Table) : List Bool :=
  coreIsUnique t

/-! ## grouping -/

/-- The distinct elements of a list, in first-seen order (§3: group iteration
order is first-encounter order). -/
def distinctKeys {α : Type} [DecidableEq α] (xs : List α) : List α :=
  xs.foldl (fun acc k => if k ∈ acc then acc else acc ++ [k]) []

/-- Modelled from the spec: the grouping index (§4.2) — per distinct key in
first-seen order, the ordered list of row indices carrying that key. -/
def computeGroups {α : Type} [DecidableEq α] (ks : List α) (d : α) :
    List (α × List Nat) :=
  (distinctKeys ks).map
    (fun k => (k, (List.range ks.length).filter (fun i => ks.getD i d = k)))

/-- The key tuple of row `i` under the grouping columns `keys` (null keys are
ordinary values, equal only to null — `Value.null` compares by `DecidableEq`). -/
def keyTupleAt (t : Table) (keys : List String) (i : Nat) : Row :=
  keys.map (fun k => ((colValuesFirst t k).getD []).getD i Value.null)

/-- The per-row key tuples of a table. -/
def keyList (t : Table) (keys : List String) : List Row :=
  (List.range t.height).map (keyTupleAt t keys)

/-- The transient grouping object: the grouped table, the key column names, an
optional aggregation selection, and the computed groups (key tuple with its
ordered row indices, first-seen key order). -/
structure GroupBy where
  df : Table
  keys : List String
  selection : Option (List String)
  groups : List (Row × List Nat)
deriving DecidableEq

/-- Modelled from the spec: core `DataFrame::groupby` (not under src/) — fails
with `ColumnNotFound` when a key column is absent, otherwise builds the group
index in one pass over the key tuples. -/
def coreGroupBy (t : Table) (keys : List String) : Except PError GroupBy :=
  if keys.all (hasCol t) then
    .ok ⟨t, keys, none, computeGroups (keyList t keys) []⟩
  else
    .error .ColumnNotFound

/-- `GroupBy::select`: record the aggregation selection (polars stores the
selection; resolution happens at aggregation time). -/
def GroupBy.select (gb : GroupBy) (s : List String) : GroupBy :=
  { gb with selection := some s }

/-! ## reductions (Modelled from the spec, §4.2: core GroupBy aggregations are
not under src/.  Reductions skip nulls; a group whose values are all null
aggregates to null.) -/

/-- The non-null values of a cell list. -/
def nonNullOf (vs : List Value) : List Value :=
  vs.filter (fun v => v ≠ Value.null)

/-- The integer content of a cell list (non-null, integer-typed cells). -/
def intsOf (vs : List Value) : List Int :=
  vs.filterMap (fun v => match v with | .int i => some i | _ => none)

def reduceMin (vs : List Value) : Value :=
  match intsOf vs with
  | [] => .null
  | x :: xs => .int (xs.foldl min x)

def reduceMax (vs : List Value) : Value :=
  match intsOf vs with
  | [] => .null
  | x :: xs => .int (xs.foldl max x)

def reduceSum (vs : List Value) : Value :=
  match intsOf vs with
  | [] => .null
  | xs => .int (xs.foldl (· + ·) 0)

def reduceMean (vs : List Value) : Value :=
  match intsOf vs with
  | [] => .null
  | xs => .rat ((xs.foldl (· + ·) 0 : Int) / (xs.length : Rat))

def reduceFirst (vs : List Value) : Value :=
  (nonNullOf vs).headD .null

def reduceLast (vs : List Value) : Value :=
  (nonNullOf vs).getLastD .null

def reduceNUnique (vs : List Value) : Value :=
  match nonNullOf vs with
  | [] => .null
  | xs => .int (distinctKeys xs).length

/-- Median via order statistics: middle element, or the mean of the two middle
elements for even counts (linear interpolation at the center). -/
def reduceMedian (vs : List Value) : Value :=
  match List.insertionSort (· ≤ ·) (intsOf vs) with
  | [] => .null
  | xs =>
    let n := xs.length
    if n % 2 = 1 then .rat ((xs.getD (n / 2) 0 : Int) : Rat)
    else .rat (((xs.getD (n / 2 - 1) 0 + xs.getD (n / 2) 0 : Int) : Rat) / 2)

/-- Sample variance (denominator `n - 1`); null for fewer than two values. -/
def reduceVar (vs : List Value) : Value :=
  match intsOf vs with
  | [] => .null
  | [_] => .null
  | xs =>
    let n : Rat := (xs.length : Rat)
    let mu : Rat := ((xs.foldl (· + ·) 0 : Int) : Rat) / n
    .rat ((xs.foldl (fun acc x => acc + ((x : Rat) - mu) ^ 2) 0) / (n - 1))

/-- Standard deviation: the square root of the sample variance, kept in exact
symbolic form (`sqrtv`) since the root is irrational in general. -/
def reduceStd (vs : List Value) : Value :=
  match reduceVar vs with
  | .rat q => .sqrtv q
  | _ => .null

/-- List-collection: the group's integer content as a list cell. -/
def reduceAggList (vs : List Value) : Value :=
  .ilist (intsOf vs)

/-- The reduction a supported aggregation name performs on one group, given the
group's cell values and its row indices (`count` is the group size, `groups`
the index list itself). -/
def aggRed (agg : String) (vs : List Value) (idxs : List Nat) : Value :=
  match agg with
  | "min" => reduceMin vs
  | "max" => reduceMax vs
  | "mean" => reduceMean vs
  | "first" => reduceFirst vs
  | "last" => reduceLast vs
  | "sum" => reduceSum vs
  | "count" => .int idxs.length
  | "n_unique" => reduceNUnique vs
  | "median" => reduceMedian vs
  | "agg_list" => reduceAggList vs
  | "groups" => .ilist (idxs.map Int.ofNat)
  | "std" => reduceStd vs
  | "var" => reduceVar vs
  | _ => .null

/-- The key columns of an aggregation output: one column per grouping key,
holding each group's key component. -/
def keyColsOf (gb : GroupBy) : List Column :=
  (List.range gb.keys.length).map
    (fun j => ⟨gb.keys.getD j "", gb.groups.map (fun g => g.1.getD j Value.null)⟩)

/-- The columns an aggregation applies to: the recorded selection (resolved by
first-match name lookup, `ColumnNotFound` when absent), or every non-key
column when no selection was made. -/
def aggTargets (gb : GroupBy) : Except PError (List Column) :=
  match gb.selection with
  | some s =>
    s.mapM (fun nm =>
      match findCol gb.df nm with
      | some c => .ok c
      | none => .error .ColumnNotFound)
  | none => .ok (gb.df.columns.filter (fun c => c.name ∉ gb.keys))

/-- Modelled from the spec: a GroupBy aggregation (§4.2) — one output row per
group, key columns first, then one aggregated column per target column, named
with the aggregation suffix (the spec's `val_count` convention). -/
def GroupBy.aggBy (gb : GroupBy) (agg : String) : Except PError Table :=
  match aggTargets gb with
  | .error e => .error e
  | .ok cols =>
    .ok ⟨keyColsOf gb ++
      cols.map (fun c =>
        ⟨c.name ++ "_" ++ agg,
         gb.groups.map (fun g =>
           aggRed agg (g.2.map (fun i => c.values.getD i Value.null)) g.2)⟩)⟩

/-- The source's `finish_groupby`: string-dispatch over the supported
aggregation names; an unknown name is the typed error
`agg fn ... does not exists` (no panic). -/
def finish_groupby (gb : GroupBy) (agg : String) : Except PError Table :=
  match agg with
  | "min" => gb.aggBy "min"
  | "max" => gb.aggBy "max"
  | "mean" => gb.aggBy "mean"
  | "first" => gb.aggBy "first"
  | "last" => gb.aggBy "last"
  | "sum" => gb.aggBy "sum"
  | "count" => gb.aggBy "count"
  | "n_unique" => gb.aggBy "n_unique"
  | "median" => gb.aggBy "median"
  | "agg_list" => gb.aggBy "agg_list"
  | "groups" => gb.aggBy "groups"
  | "std" => gb.aggBy "std"
  | "var" => gb.aggBy "var"
  | a => .error (.Other ("agg fn " ++ a ++ " does not exists"))

/-- The aggregation names `finish_groupby` accepts. -/
def validAggs : List String :=
  ["min", "max", "mean", "first", "last", "sum", "count", "n_unique",
   "median", "agg_list", "groups", "std", "var"]

/-- The binding `PyDataFrame::groupby`: group, apply the optional selection,
then dispatch the aggregation name. -/
def PyDataFrame.groupby (t : Table) (keys : List String)
    (select : Option (List String)) (agg : String) : Outcome Table :=
  match coreGroupBy t keys with
  | .error e => .err e
  | .ok gb =>
    let selection := match select with
      | some s => gb.select s
      | none => gb
    outOf (finish_groupby selection agg)

/-! ## groupby_apply (Callback Bridge) -/

/-- Materialize one group as a table: the group's rows of every column, in
group-index order (the spec's `take`-based materialization, §4.5). -/
def materializeGroup (df : Table) (idxs : List Nat) : Table :=
  ⟨df.columns.map (fun c => ⟨c.name, idxs.map (fun i => c.values.getD i Value.null)⟩)⟩

/-- The schema the concatenation step compares: the ordered column names. -/
def schemaOf (t : Table) : List String :=
  t.columns.map Column.name

/-- Concatenate two schema-compatible tables row-wise. -/
def vstackT (a b : Table) : Table :=
  ⟨(a.columns.zip b.columns).map (fun p => ⟨p.1.name, p.1.values ++ p.2.values⟩)⟩

/-- Modelled from the spec: the per-group loop of core `GroupBy::apply` (not
under src/, §4.5) — invoke the transform once per group in group-iteration
order, concatenating results; the first failure aborts the whole operation
with nothing committed; differing result schemas are `SchemaMismatch`. -/
def gbApplyGo (df : Table) (g : Table → Outcome Table) :
    List (Row × List Nat) → Option Table → Outcome Table
  | [], none => .ok ⟨[]⟩
  | [], some acc => .ok acc
  | grp :: rest, acc =>
    match g (materializeGroup df grp.2) with
    | .panic m => .panic m
    | .err e => .err e
    | .ok r =>
      match acc with
      | none => gbApplyGo df g rest (some r)
      | some a =>
        if schemaOf r = schemaOf a then gbApplyGo df g rest (some (vstackT a r))
        else .err .SchemaMismatch

def GroupBy.apply (gb : GroupBy) (g : Table → Outcome Table) : Outcome Table :=
  gbApplyGo gb.df g gb.groups none

/-- The closure the binding passes to `GroupBy::apply`: call the Python lambda
and, per the source, `panic!` with `UDF failed: ...` when the lambda raised —
the error is converted to a panic, not returned.  (The marshalling `unwrap`s
around the call are out of model.) -/
def udfClosure (f : Table → Except String Table) (df : Table) : Outcome Table :=
  match f df with
  | .ok r => .ok r
  | .error e => .panic ("UDF failed: " ++ e)

/-- The binding `PyDataFrame::groupby_apply`. -/
def PyDataFrame.groupby_apply (t : Table) (keys : List String)
    (f : Table → Except String Table) : Outcome Table :=
  match coreGroupBy t keys with
  | .error e => .err e
  | .ok gb => gb.apply (udfClosure f)

/-! ## quantile -/

/-- Linear interpolation between order statistics at rank `p * (n - 1)`. -/
def quantileOf (xs0 : List Int) (p : Rat) : Value :=
  match List.insertionSort (· ≤ ·) xs0 with
  | [] => .null
  | xs =>
    let n := xs.length
    let pos : Rat := p * ((n - 1 : Nat) : Rat)
    let lo : Nat := pos.floor.toNat
    let hi : Nat := min (lo + 1) (n - 1)
    let frac : Rat := pos - (lo : Rat)
    .rat ((xs.getD lo 0 : Rat) + frac * ((xs.getD hi 0 : Rat) - (xs.getD lo 0 : Rat)))

/-- Modelled from the spec: core `GroupBy::quantile` (not under src/, §4.2) —
`InvalidArgument` when `p` lies outside `[0, 1]`, otherwise the per-group
linear-interpolation quantile of each selected column. -/
def gbQuantile (gb : GroupBy) (p : Rat) : Except PError Table :=
  if p < 0 ∨ 1 < p then .error .InvalidArgument
  else
    match aggTargets gb with
    | .error e => .error e
    | .ok cols =>
      .ok ⟨keyColsOf gb ++
        cols.map (fun c =>
          ⟨c.name ++ "_quantile",
           gb.groups.map (fun g =>
             quantileOf (intsOf (g.2.map (fun i => c.values.getD i Value.null))) p)⟩)⟩

/-- Modelled from the spec: core `DataFrame::quantile` (not under src/) —
same `InvalidArgument` guard, whole-table quantile of every column. -/
def coreQuantileDf (t : Table) (p : Rat) : Except PError Table :=
  if p < 0 ∨ 1 < p then .error .InvalidArgument
  else .ok ⟨t.columns.map (fun c => ⟨c.name, [quantileOf (intsOf c.values) p]⟩)⟩

/-- The binding `PyDataFrame::groupby_quantile`: group, select, quantile. -/
def PyDataFrame.groupby_quantile (t : Table) (keys : List String)
    (select : List String) (p : Rat) : Outcome Table :=
  match coreGroupBy t keys with
  | .error e => .err e
  | .ok gb => outOf (gbQuantile (gb.select select) p)

/-- The binding `PyDataFrame::quantile`. -/
def PyDataFrame.quantile (t : Table) (p : Rat) : Outcome Table :=
  outOf (coreQuantileDf t p)

/-! ## join -/

inductive JoinType where
  | Left : JoinType
  | Inner : JoinType
  | Outer : JoinType
deriving DecidableEq

/-- Modelled from the spec: the row-correspondence pairs of a join (§4.3) —
inner: one pair per match; left: every left row at least once, unmatched ones
paired with nothing; outer: left semantics plus right rows nothing matched. -/
def joinPairs (lk rk : List Row) (jt : JoinType) : List (Option Nat × Option Nat) :=
  let matchesOf := fun i =>
    (List.range rk.length).filter (fun j => rk.getD j [] = lk.getD i [])
  let leftPart :=
    (List.range lk.length).flatMap (fun i =>
      match matchesOf i with
      | [] => [((some i : Option Nat), (none : Option Nat))]
      | js => js.map (fun j => (some i, some j)))
  match jt with
  | .Inner =>
    (List.range lk.length).flatMap (fun i =>
      (matchesOf i).map (fun j => ((some i : Option Nat), (some j : Option Nat))))
  | .Left => leftPart
  | .Outer =>
    let unmatchedRight :=
      (List.range rk.length).filter (fun j =>
        (List.range lk.length).all (fun i => lk.getD i [] ≠ rk.getD j []))
    leftPart ++ unmatchedRight.map (fun j => (none, some j))

/-- Modelled from the spec: core `DataFrame::join` (not under src/, §4.3) —
key lookup by name (`ColumnNotFound` when absent), multi-key tuples compared
whole, output columns = left columns followed by the right's non-key columns;
for outer joins a left key column coalesces from the right key on right-only
rows. -/
def coreJoin (l r : Table) (lOn rOn : List String) (jt : JoinType) :
    Except PError Table :=
  if ¬ lOn.all (hasCol l) then .error .ColumnNotFound
  else if ¬ rOn.all (hasCol r) then .error .ColumnNotFound
  else
    let lk := keyList l lOn
    let rk := keyList r rOn
    let pairs := joinPairs lk rk jt
    let leftCols := l.columns.map (fun c =>
      ⟨c.name, pairs.map (fun p =>
        match p.1 with
        | some i => c.values.getD i Value.null
        | none =>
          match lOn.findIdx? (fun s => s = c.name), p.2 with
          | some k, some j => ((colValuesFirst r (rOn.getD k "")).getD []).getD j Value.null
          | _, _ => Value.null)⟩)
    let rightCols := (r.columns.filter (fun c => c.name ∉ rOn)).map (fun c =>
      ⟨c.name, pairs.map (fun p =>
        match p.2 with
        | some j => c.values.getD j Value.null
        | none => Value.null)⟩)
    .ok ⟨leftCols ++ rightCols⟩

/-- The binding `PyDataFrame::join`: the source matches the `how` string and
reaches `panic!("not supported")` for anything outside
`left` / `inner` / `outer` before any join work happens. -/
def PyDataFrame.join (t other : Table) (left_on right_on : List String)
    (how : String) : Outcome Table :=
  match how with
  | "left" => outOf (coreJoin t other left_on right_on .Left)
  | "inner" => outOf (coreJoin t other left_on right_on .Inner)
  | "outer" => outOf (coreJoin t other left_on right_on .Outer)
  | _ => .panic "not supported"

/-! ## sort -/

def toIntOpt (v : Value) : Option Int :=
  match v with
  | .int i => some i
  | _ => none

/-- The nulls-last ascending comparison on optional keys (§4.1: nulls sort
last regardless of direction). -/
def optIntLEb : Option Int → Option Int → Bool
  | some a, some b => a ≤ b
  | some _, none => true
  | none, some _ => false
  | none, none => true

def rowKeyAt (j : Nat) (r : Row) : Option Int :=
  toIntOpt (r.getD j Value.null)

/-- Row comparison by the integer key in column position `j`. -/
def keyLE (j : Nat) (r1 r2 : Row) : Prop :=
  optIntLEb (rowKeyAt j r1) (rowKeyAt j r2) = true

instance (j : Nat) : DecidableRel (keyLE j) := fun a b => by
  unfold keyLE; infer_instance

/-- The reversed comparison, for descending sorts. -/
def keyGE (j : Nat) (r1 r2 : Row) : Prop :=
  keyLE j r2 r1

instance (j : Nat) : DecidableRel (keyGE j) := fun a b => by
  unfold keyGE keyLE; infer_instance

def namesOf (t : Table) : List String :=
  t.columns.map Column.name

/-- Rebuild a table column-major from a row list and the column names. -/
def tableFromRows (names : List String) (rws : List Row) : Table :=
  ⟨(List.range names.length).map
    (fun j => ⟨names.getD j "", rws.map (fun r => r.getD j Value.null)⟩)⟩

def findColIdx (t : Table) (nm : String) : Option Nat :=
  t.columns.findIdx? (fun c => c.name = nm)

/-- Modelled from the spec: core `DataFrame::sort` (not under src/, §4.1) —
a stable sort of the rows by the named column, nulls last; `ColumnNotFound`
when the column is absent. -/
def coreSort (t : Table) (byc : String) (reverse : Bool) : Except PError Table :=
  match findColIdx t byc with
  | none => .error .ColumnNotFound
  | some j =>
    .ok (tableFromRows (namesOf t)
      (if reverse then List.insertionSort (keyGE j) (tableRows t)
       else List.insertionSort (keyLE j) (tableRows t)))

/-! ## downsample -/

/-- The resampling rule of the source's `match`: a unit with a window
multiple. -/
inductive SampleRule where
  | Second : Nat → SampleRule
  | Minute : Nat → SampleRule
  | Day : Nat → SampleRule
  | Hour : Nat → SampleRule
deriving DecidableEq

/-- The source's rule-string dispatch: outside the four supported units the
typed error `rule ... not supported` is returned. -/
def parseRule (rule : String) (n : Nat) : Except PError SampleRule :=
  match rule with
  | "second" => .ok (.Second n)
  | "minute" => .ok (.Minute n)
  | "day" => .ok (.Day n)
  | "hour" => .ok (.Hour n)
  | a => .error (.Other ("rule " ++ a ++ " not supported"))

/-- Window width in seconds: `n` times the rule unit. -/
def ruleWidth : SampleRule → Nat
  | .Second n => n
  | .Minute n => 60 * n
  | .Hour n => 3600 * n
  | .Day n => 86400 * n

/-- The bucket boundary of time value `v` under window width `w`: the window
start, i.e. `v` rounded down to a multiple of `w` (floor division). -/
def bucketOf (w : Nat) (v : Int) : Int :=
  (v / (w : Int)) * (w : Int)

def replaceColsGo (nm : String) (vs : List Value) : List Column → List Column
  | [] => []
  | c :: cs => if c.name = nm then ⟨c.name, vs⟩ :: cs else c :: replaceColsGo nm vs cs

/-- Replace the values of the first column with the given name. -/
def replaceColValues (t : Table) (nm : String) (vs : List Value) : Table :=
  ⟨replaceColsGo nm vs t.columns⟩

/-- Modelled from the spec: core `DataFrame::downsample` (not under src/,
§4.4) — derive the bucket boundary of every row's time value (the time column
is modelled in seconds) and group by it; a missing time column is
`ColumnNotFound`, a non-integer one `TypeMismatch`. -/
def coreDownsample (t : Table) (byc : String) (r : SampleRule) :
    Except PError GroupBy :=
  match colValuesFirst t byc with
  | none => .error .ColumnNotFound
  | some vs =>
    match vs.mapM toIntOpt with
    | none => .error .TypeMismatch
    | some ts =>
      let w := ruleWidth r
      coreGroupBy
        (replaceColValues t byc (ts.map (fun v => Value.int (bucketOf w v)))) [byc]

/-- The binding `PyDataFrame::downsample`: parse the rule string, bucket and
group, dispatch the aggregation, then sort ascending by the bucket column
(the source's `sort(by, false)`). -/
def PyDataFrame.downsample (t : Table) (byc rule : String) (n : Nat)
    (agg : String) : Outcome Table :=
  match parseRule rule n with
  | .error e => .err e
  | .ok r =>
    match coreDownsample t byc r with
    | .error e => .err e
    | .ok gb =>
      match finish_groupby gb agg with
      | .error e => .err e
      | .ok df => outOf (coreSort df byc false)

/-! ## statement vocabulary -/

/-- Number of `true` entries of a mask. -/
def countTrue (m : List Bool) : Nat :=
  (m.filter (fun b => b)).length

/-- The positions at which a mask is true, in order. -/
def trueIdxs (m : List Bool) : List Nat :=
  (List.range m.length).filter (fun i => m.getD i false)

/-- Row selection by a mask: the rows at `true` positions, in order. -/
def maskSelect (rs : List Row) (m : List Bool) : List Row :=
  (rs.zip m).filterMap (fun p => if p.2 then some p.1 else none)

/-- The window width named by a rule string: `n` times the rule unit in
seconds. -/
def widthOf (rule : String) (n : Nat) : Nat :=
  match rule with
  | "second" => n
  | "minute" => 60 * n
  | "hour" => 3600 * n
  | "day" => 86400 * n
  | _ => 0

/-- The row indices falling in the bucket with boundary `b`. -/
def bucketIdxs (ts : List Int) (w : Nat) (b : Int) : List Nat :=
  (List.range ts.length).filter (fun i => bucketOf w (ts.getD i 0) = b)

/-- The integer key of a row's first cell (0 for non-integer cells). -/
def keyIntAt0 (r : Row) : Int :=
  match r.getD 0 Value.null with
  | .int i => i
  | _ => 0

/-- The aggregated cell a downsample produces for column `c` in the bucket
with boundary `b`: the aggregation applied to exactly the column's values at
the bucket's row indices. -/
def downAggCell (agg : String) (ts : List Int) (w : Nat) (c : Column)
    (b : Int) : Value :=
  aggRed agg ((bucketIdxs ts w b).map (fun i => c.values.getD i Value.null))
    (bucketIdxs ts w b)

/-! ## generic list lemmas -/

theorem range_map_getD {α β : Type} (xs : List α) (d : α) (f : α → β) :
    (List.range xs.length).map (fun i => f (xs.getD i d)) = xs.map f := by
  apply List.ext_getElem
  · simp
  · intro i h1 h2
    have hi : i < xs.length := by simpa using h2
    simp only [List.getElem_map, List.getElem_range]
    rw [List.getD_eq_getElem _ _ hi]

theorem rowsN_build {γ : Type} (gs : List γ) (fs : List (γ → Value)) :
    rowsN gs.length (fs.map (fun f => gs.map f)) =
      gs.map (fun g => fs.map (fun f => f g)) := by
  apply List.ext_getElem
  · simp [rowsN]
  · intro i h1 h2
    have hi : i < gs.length := by simpa [rowsN] using h1
    simp only [rowsN, List.getElem_map, List.getElem_range, List.map_map]
    apply List.map_congr_left
    intro f _
    simp only [Function.comp_apply]
    rw [List.getD_eq_getElem _ _ (by simpa using hi), List.getElem_map]

theorem getD_map_lt {α β : Type} {xs : List α} {i : Nat} (h : i < xs.length)
    (f : α → β) (d : β) (d' : α) :
    (xs.map f).getD i d = f (xs.getD i d') := by
  rw [List.getD_eq_getElem _ _ (by simpa using h), List.getD_eq_getElem _ _ h,
    List.getElem_map]

theorem trueIdxs_cons (b : Bool) (m : List Bool) :
    trueIdxs (b :: m) =
      (if b then [0] else []) ++ (trueIdxs m).map Nat.succ := by
  rw [trueIdxs, trueIdxs, List.length_cons, List.range_succ_eq_map,
    List.filter_cons, List.filter_map]
  have h1 : ((fun i => (b :: m).getD i false) ∘ Nat.succ) =
      (fun i => m.getD i false) := funext (fun i => by simp)
  rw [h1]
  cases b <;> simp

theorem trueIdxs_length (m : List Bool) :
    (trueIdxs m).length = countTrue m := by
  induction m with
  | nil => simp [trueIdxs, countTrue]
  | cons b m ih =>
    rw [trueIdxs_cons]
    cases b <;> simp [countTrue, List.filter_cons] at ih ⊢ <;> omega

theorem selectG {α : Type} (d : α) (xs : List α) (m : List Bool)
    (h : xs.length = m.length) :
    (xs.zip m).filterMap (fun p => if p.2 then some p.1 else none) =
      (trueIdxs m).map (fun i => xs.getD i d) := by
  induction m generalizing xs with
  | nil =>
    have : xs = [] := List.length_eq_zero.mp (by simpa using h)
    simp [this, trueIdxs]
  | cons b m ih =>
    match xs with
    | x :: xs =>
      have hx : xs.length = m.length := by simpa using h
      rw [trueIdxs_cons]
      cases b <;>
        simp [List.zip_cons_cons, List.filterMap_cons, ih xs hx,
          List.map_map, Function.comp]

theorem take_rows (cols : List (List Value)) (ix : List Nat) :
    rowsN ix.length (cols.map (fun vs => ix.map (fun i => vs.getD i Value.null))) =
      ix.map (fun i => cols.map (fun vs => vs.getD i Value.null)) := by
  simpa [List.map_map] using
    rowsN_build ix (cols.map (fun vs => fun i => vs.getD i Value.null))

theorem asBoolMask_map (m : List Bool) :
    asBoolMask (m.map Value.bool) = some m := by
  induction m with
  | nil => rfl
  | cons b m ih => simp [asBoolMask, ih]

theorem tableRows_length (t : Table) : (tableRows t).length = t.height := by
  simp [tableRows, rowsN]

theorem rowsN_getD {i n : Nat} (h : i < n) (cols : List (List Value)) (d : Row) :
    (rowsN n cols).getD i d = cols.map (fun vs => vs.getD i Value.null) := by
  rw [rowsN, List.getD_eq_getElem _ _ (by simpa using h), List.getElem_map,
    List.getElem_range]

/-! ## lemmas about replaceColValues -/

theorem replaceColsGo_find {nm : String} {vs' : List Value} :
    ∀ cols : List Column,
      (cols.find? (fun c => c.name = nm)).isSome = true →
      (replaceColsGo nm vs' cols).find? (fun c => c.name = nm) = some ⟨nm, vs'⟩ := by
  intro cols
  induction cols with
  | nil => simp
  | cons c cs ih =>
    intro hs
    by_cases hn : c.name = nm
    · simp only [replaceColsGo, if_pos hn]
      rw [List.find?_cons_of_pos _ (by simp [hn])]
      rw [hn]
    · simp only [replaceColsGo, if_neg hn]
      rw [List.find?_cons_of_neg _ (by simp [hn])]
      apply ih
      rw [List.find?_cons_of_neg _ (by simp [hn])] at hs
      exact hs

theorem replaceColsGo_filter {nm : String} {vs' : List Value}
    (p : Column → Bool) (hp : ∀ ws, p ⟨nm, ws⟩ = false) :
    ∀ cols : List Column,
      (replaceColsGo nm vs' cols).filter p = cols.filter p := by
  intro cols
  induction cols with
  | nil => rfl
  | cons c cs ih =>
    obtain ⟨cn, cv⟩ := c
    by_cases hn : cn = nm
    · subst hn
      simp [replaceColsGo, List.filter_cons, hp vs', hp cv]
    · simp only [replaceColsGo]
      rw [if_neg (by simpa using hn)]
      rw [List.filter_cons, List.filter_cons, ih]

theorem replaceColsGo_mem {nm : String} {vs' : List Value} {c' : Column} :
    ∀ {cols : List Column}, c' ∈ replaceColsGo nm vs' cols →
      c' ∈ cols ∨ c'.values = vs' := by
  intro cols
  induction cols with
  | nil => simp [replaceColsGo]
  | cons c cs ih =>
    intro hmem
    by_cases hn : c.name = nm
    · simp only [replaceColsGo, if_pos hn] at hmem
      rcases List.mem_cons.mp hmem with h | h
      · right
        rw [h]
      · left
        exact List.mem_cons_of_mem c h
    · simp only [replaceColsGo, if_neg hn] at hmem
      rcases List.mem_cons.mp hmem with h | h
      · left
        exact h ▸ List.mem_cons_self c cs
      · rcases ih h with h' | h'
        · left
          exact List.mem_cons_of_mem c h'
        · right
          exact h'

theorem replaceCol_height {t : Table} {nm : String} {vs' : List Value}
    (hlen : vs'.length = t.height) :
    (replaceColValues t nm vs').height = t.height := by
  rcases hc : t.columns with _ | ⟨c, cs⟩
  · simp [replaceColValues, Table.height, hc, replaceColsGo]
  · by_cases hn : c.name = nm
    · simp only [replaceColValues, Table.height, hc, replaceColsGo, if_pos hn]
      rw [hlen]
      simp [Table.height, hc]
    · simp [replaceColValues, Table.height, hc, replaceColsGo, if_neg hn]

theorem replaceCol_wf {t : Table} {nm : String} {vs' : List Value}
    (hw : WellFormed t) (hlen : vs'.length = t.height) :
    WellFormed (replaceColValues t nm vs') := by
  intro c' hc'
  rw [replaceCol_height hlen]
  rcases replaceColsGo_mem hc' with h | h
  · exact hw c' h
  · rw [h, hlen]

theorem replaceCol_colValuesFirst {t : Table} {nm : String} {vs' : List Value}
    (h : hasCol t nm = true) :
    colValuesFirst (replaceColValues t nm vs') nm = some vs' := by
  rw [colValuesFirst, findCol, replaceColValues]
  rw [replaceColsGo_find t.columns (by simpa [hasCol, findCol] using h)]
  rfl

theorem replaceCol_hasCol {t : Table} {nm : String} {vs' : List Value}
    (h : hasCol t nm = true) :
    hasCol (replaceColValues t nm vs') nm = true := by
  rw [hasCol, findCol, replaceColValues]
  rw [replaceColsGo_find t.columns (by simpa [hasCol, findCol] using h)]
  rfl

/-! ## distinct keys under an injective map -/

theorem distinctKeys_map {α β : Type} [DecidableEq α] [DecidableEq β]
    {g : α → β} (hg : Function.Injective g) (xs : List α) :
    distinctKeys (xs.map g) = (distinctKeys xs).map g := by
  have aux : ∀ (ys : List α) (acc : List α),
      (ys.map g).foldl (fun a k => if k ∈ a then a else a ++ [k]) (acc.map g) =
        (ys.foldl (fun a k => if k ∈ a then a else a ++ [k]) acc).map g := by
    intro ys
    induction ys with
    | nil => intro acc; simp
    | cons y ys ih =>
      intro acc
      simp only [List.map_cons, List.foldl_cons]
      have hstep : (if g y ∈ acc.map g then acc.map g else acc.map g ++ [g y]) =
          (if y ∈ acc then acc else acc ++ [y]).map g := by
        by_cases hy : y ∈ acc
        · rw [if_pos hy, if_pos (List.mem_map_of_mem g hy)]
        · rw [if_neg hy,
            if_neg (fun hmem => hy ((List.mem_map_of_injective hg).mp hmem))]
          simp
      rw [hstep, ih]
  simpa [distinctKeys] using aux xs []

/-! ## dispatch of the supported aggregation names -/

theorem finish_groupby_of_mem (gb : GroupBy) (agg : String)
    (h : agg ∈ validAggs) : finish_groupby gb agg = gb.aggBy agg := by
  simp only [validAggs] at h
  fin_cases h <;> rfl

/-! ## order facts for the row-key comparison -/

instance keyLE_total (j : Nat) : IsTotal Row (keyLE j) := by
  constructor
  intro a b
  unfold keyLE
  cases hx : rowKeyAt j a <;> cases hy : rowKeyAt j b <;>
    simp [optIntLEb]
  omega

instance keyLE_trans (j : Nat) : IsTrans Row (keyLE j) := by
  constructor
  intro a b c hab hbc
  unfold keyLE at hab hbc ⊢
  cases hx : rowKeyAt j a <;> cases hy : rowKeyAt j b <;>
    cases hz : rowKeyAt j c <;>
    simp [hx, hy, hz, optIntLEb] at hab hbc ⊢ <;> omega

/-! ## rebuilding a table from rows -/

theorem tableFromRows_rows (names : List String) (rws : List Row)
    (hnn : names ≠ []) (hlen : ∀ r ∈ rws, r.length = names.length) :
    tableRows (tableFromRows names rws) = rws := by
  have hh : (tableFromRows names rws).height = rws.length := by
    rcases names with _ | ⟨n0, ns⟩
    · exact absurd rfl hnn
    · simp [tableFromRows, Table.height, List.range_succ_eq_map]
  have hcv : (tableFromRows names rws).columns.map Column.values
      = ((List.range names.length).map
          (fun j => fun r => r.getD j Value.null)).map (fun f => rws.map f) := by
    simp [tableFromRows, List.map_map]
  rw [tableRows, hh, hcv,
    rowsN_build rws ((List.range names.length).map
      (fun j => fun r => r.getD j Value.null))]
  conv_rhs => rw [← List.map_id rws]
  apply List.map_congr_left
  intro r hr
  rw [List.map_map]
  have : ((fun f => f r) ∘ fun j => fun r => r.getD j Value.null) =
      (fun j => r.getD j Value.null) := rfl
  rw [this, ← hlen r hr]
  simpa using range_map_getD r Value.null id

theorem tableFromRows_firstCol (n0 : String) (ns : List String)
    (rws : List Row) :
    colValuesFirst (tableFromRows (n0 :: ns) rws) n0 =
      some (rws.map (fun r => r.getD 0 Value.null)) := by
  rw [colValuesFirst, findCol, tableFromRows]
  rw [List.length_cons, List.range_succ_eq_map, List.map_cons]
  rw [List.find?_cons_of_pos _ (by simp)]
  rfl

/-! ## downsample sub-lemmas -/

theorem mapM_toIntOpt (ts : List Int) :
    (ts.map Value.int).mapM toIntOpt = some ts := by
  induction ts with
  | nil => rfl
  | cons x xs ih =>
    rw [List.map_cons, List.mapM_cons, ih]
    rfl

theorem coreDownsample_eq (t : Table) (byc : String) (r : SampleRule)
    (ts : List Int) (hcol : colValuesFirst t byc = some (ts.map Value.int)) :
    coreDownsample t byc r =
      coreGroupBy
        (replaceColValues t byc ((ts.map (bucketOf (ruleWidth r))).map Value.int))
        [byc] := by
  simp only [coreDownsample, hcol, mapM_toIntOpt, List.map_map]
  rfl

theorem keyList_single (t2 : Table) (byc : String) (vs' : List Value)
    (hcolv : colValuesFirst t2 byc = some vs') (hh : t2.height = vs'.length) :
    keyList t2 [byc] = vs'.map (fun v => [v]) := by
  rw [keyList, hh]
  calc (List.range vs'.length).map (keyTupleAt t2 [byc])
      = (List.range vs'.length).map (fun i => [vs'.getD i Value.null]) :=
        List.map_congr_left (fun i _ => by simp [keyTupleAt, hcolv])
    _ = vs'.map (fun v => [v]) := range_map_getD vs' Value.null (fun v => [v])

theorem computeGroups_bucket (ts : List Int) (w : Nat) :
    computeGroups (((ts.map (bucketOf w)).map Value.int).map (fun v => [v])) [] =
      (distinctKeys (ts.map (bucketOf w))).map
        (fun b => ([Value.int b], bucketIdxs ts w b)) := by
  have hinj : Function.Injective (fun b : Int => [Value.int b]) := by
    intro a b h
    simpa using h
  rw [List.map_map]
  have hcomp : ((fun v : Value => [v]) ∘ Value.int) = fun b : Int => [Value.int b] := rfl
  rw [hcomp, computeGroups, distinctKeys_map hinj, List.map_map]
  apply List.map_congr_left
  intro b _
  simp only [Function.comp_apply]
  congr 1
  rw [List.length_map, List.length_map, bucketIdxs]
  apply List.filter_congr
  intro i hi
  have hilt : i < ts.length := List.mem_range.mp hi
  have e1 : ((ts.map (bucketOf w)).map (fun b => [Value.int b])).getD i [] =
      [Value.int ((ts.map (bucketOf w)).getD i 0)] :=
    getD_map_lt (by simpa using hilt) _ _ _
  have e2 : (ts.map (bucketOf w)).getD i 0 = bucketOf w (ts.getD i 0) :=
    getD_map_lt hilt _ _ _
  rw [e1, e2]
  simp

/-- The downsample pipeline after a successful rule parse: the output exists,
its bucket column is the sorted distinct bucket boundaries, and each output
row is a bucket boundary followed by the per-bucket aggregates. -/
theorem downsample_ok (t : Table) (byc rule agg : String) (n : Nat)
    (r : SampleRule) (ts : List Int)
    (hparse : parseRule rule n = .ok r) (hw : WellFormed t)
    (ha : agg ∈ validAggs)
    (hcol : colValuesFirst t byc = some (ts.map Value.int)) :
    ∃ t', PyDataFrame.downsample t byc rule n agg = .ok t' ∧
      (∃ os : List Int,
        colValuesFirst t' byc = some (os.map Value.int) ∧
        os.Sorted (· ≤ ·) ∧
        os.Perm (distinctKeys (ts.map (bucketOf (ruleWidth r))))) ∧
      (∀ row ∈ tableRows t',
        ∃ b ∈ distinctKeys (ts.map (bucketOf (ruleWidth r))),
          row = Value.int b ::
            (t.columns.filter (fun c => c.name ≠ byc)).map
              (fun c => downAggCell agg ts (ruleWidth r) c b)) := by
  obtain ⟨c0, hfind⟩ : ∃ c0, findCol t byc = some c0 := by
    rcases hf : findCol t byc with _ | c0
    · rw [colValuesFirst, hf] at hcol
      exact absurd hcol (by simp)
    · exact ⟨c0, rfl⟩
  have hc0vals : c0.values = ts.map Value.int := by
    rw [colValuesFirst, hfind] at hcol
    simpa using hcol
  have hts : ts.length = t.height := by
    have h1 := hw c0 (List.mem_of_find?_eq_some hfind)
    rw [hc0vals] at h1
    simpa using h1
  have hhas : hasCol t byc = true := by simp [hasCol, hfind]
  have hvs'len : ((ts.map (bucketOf (ruleWidth r))).map Value.int).length
      = t.height := by
    simpa using hts
  have ht2col : colValuesFirst
      (replaceColValues t byc ((ts.map (bucketOf (ruleWidth r))).map Value.int))
      byc = some ((ts.map (bucketOf (ruleWidth r))).map Value.int) :=
    replaceCol_colValuesFirst hhas
  have ht2has : hasCol
      (replaceColValues t byc ((ts.map (bucketOf (ruleWidth r))).map Value.int))
      byc = true :=
    replaceCol_hasCol hhas
  have ht2h : (replaceColValues t byc
      ((ts.map (bucketOf (ruleWidth r))).map Value.int)).height
      = ((ts.map (bucketOf (ruleWidth r))).map Value.int).length := by
    rw [replaceCol_height hvs'len, hvs'len]
  have hgb : coreGroupBy
      (replaceColValues t byc ((ts.map (bucketOf (ruleWidth r))).map Value.int))
      [byc] =
      .ok ⟨replaceColValues t byc
            ((ts.map (bucketOf (ruleWidth r))).map Value.int), [byc], none,
          (distinctKeys (ts.map (bucketOf (ruleWidth r)))).map
            (fun b => ([Value.int b], bucketIdxs ts (ruleWidth r) b))⟩ := by
    have hguard : (([byc].all (hasCol
        (replaceColValues t byc
          ((ts.map (bucketOf (ruleWidth r))).map Value.int))))) = true := by
      simp only [List.all_cons, List.all_nil, Bool.and_true]
      exact ht2has
    simp only [coreGroupBy]
    rw [if_pos hguard, keyList_single _ _ _ ht2col ht2h, computeGroups_bucket]
  have htargets : aggTargets
      ⟨replaceColValues t byc
          ((ts.map (bucketOf (ruleWidth r))).map Value.int), [byc], none,
        (distinctKeys (ts.map (bucketOf (ruleWidth r)))).map
          (fun b => ([Value.int b], bucketIdxs ts (ruleWidth r) b))⟩ =
      .ok (t.columns.filter (fun c => c.name ≠ byc)) := by
    simp only [aggTargets]
    have hrepl : (replaceColValues t byc
        ((ts.map (bucketOf (ruleWidth r))).map Value.int)).columns =
        replaceColsGo byc ((ts.map (bucketOf (ruleWidth r))).map Value.int)
          t.columns := rfl
    rw [hrepl, replaceColsGo_filter _ (fun ws => by simp)]
    congr 1
    apply List.filter_congr
    intro c _
    simp
  have hfg : finish_groupby
      ⟨replaceColValues t byc
          ((ts.map (bucketOf (ruleWidth r))).map Value.int), [byc], none,
        (distinctKeys (ts.map (bucketOf (ruleWidth r)))).map
          (fun b => ([Value.int b], bucketIdxs ts (ruleWidth r) b))⟩ agg =
      .ok ⟨⟨byc, (distinctKeys (ts.map (bucketOf (ruleWidth r)))).map Value.int⟩ ::
        (t.columns.filter (fun c => c.name ≠ byc)).map (fun c =>
          ⟨c.name ++ "_" ++ agg,
           (distinctKeys (ts.map (bucketOf (ruleWidth r)))).map
             (downAggCell agg ts (ruleWidth r) c)⟩)⟩ := by
    rw [finish_groupby_of_mem _ _ ha]
    simp only [GroupBy.aggBy, htargets]
    simp [keyColsOf, List.map_map, downAggCell, List.range_succ]
  have hh3 : (Table.mk (⟨byc,
      (distinctKeys (ts.map (bucketOf (ruleWidth r)))).map Value.int⟩ ::
      (t.columns.filter (fun c => c.name ≠ byc)).map (fun c =>
        ⟨c.name ++ "_" ++ agg,
         (distinctKeys (ts.map (bucketOf (ruleWidth r)))).map
           (downAggCell agg ts (ruleWidth r) c)⟩))).height =
      (distinctKeys (ts.map (bucketOf (ruleWidth r)))).length := by
    simp [Table.height]
  have hrows3 : tableRows (Table.mk (⟨byc,
      (distinctKeys (ts.map (bucketOf (ruleWidth r)))).map Value.int⟩ ::
      (t.columns.filter (fun c => c.name ≠ byc)).map (fun c =>
        ⟨c.name ++ "_" ++ agg,
         (distinctKeys (ts.map (bucketOf (ruleWidth r)))).map
           (downAggCell agg ts (ruleWidth r) c)⟩))) =
      (distinctKeys (ts.map (bucketOf (ruleWidth r)))).map (fun b =>
        Value.int b ::
          (t.columns.filter (fun c => c.name ≠ byc)).map
            (fun c => downAggCell agg ts (ruleWidth r) c b)) := by
    rw [tableRows, hh3]
    have hcv3 : (Table.mk (⟨byc,
        (distinctKeys (ts.map (bucketOf (ruleWidth r)))).map Value.int⟩ ::
        (t.columns.filter (fun c => c.name ≠ byc)).map (fun c =>
          ⟨c.name ++ "_" ++ agg,
           (distinctKeys (ts.map (bucketOf (ruleWidth r)))).map
             (downAggCell agg ts (ruleWidth r) c)⟩))).columns.map Column.values =
        ((fun b => Value.int b) ::
          (t.columns.filter (fun c => c.name ≠ byc)).map
            (fun c => downAggCell agg ts (ruleWidth r) c)).map
          (fun f => (distinctKeys (ts.map (bucketOf (ruleWidth r)))).map f) := by
      simp [List.map_map]
    rw [hcv3, rowsN_build]
    apply List.map_congr_left
    intro b _
    simp
  have hidx : findColIdx (Table.mk (⟨byc,
      (distinctKeys (ts.map (bucketOf (ruleWidth r)))).map Value.int⟩ ::
      (t.columns.filter (fun c => c.name ≠ byc)).map (fun c =>
        ⟨c.name ++ "_" ++ agg,
         (distinctKeys (ts.map (bucketOf (ruleWidth r)))).map
           (downAggCell agg ts (ruleWidth r) c)⟩))) byc = some 0 := by
    simp [findColIdx, List.findIdx?_cons]
  have hpipe : PyDataFrame.downsample t byc rule n agg =
      outOf (coreSort (Table.mk (⟨byc,
        (distinctKeys (ts.map (bucketOf (ruleWidth r)))).map Value.int⟩ ::
        (t.columns.filter (fun c => c.name ≠ byc)).map (fun c =>
          ⟨c.name ++ "_" ++ agg,
           (distinctKeys (ts.map (bucketOf (ruleWidth r)))).map
             (downAggCell agg ts (ruleWidth r) c)⟩))) byc false) := by
    simp only [PyDataFrame.downsample, hparse,
      coreDownsample_eq t byc r ts hcol, hgb, hfg]
  rw [coreSort] at hpipe
  rw [hidx] at hpipe
  simp only [Bool.false_eq_true, if_false, outOf] at hpipe
  have hshape : ∀ row ∈ tableRows (Table.mk (⟨byc,
      (distinctKeys (ts.map (bucketOf (ruleWidth r)))).map Value.int⟩ ::
      (t.columns.filter (fun c => c.name ≠ byc)).map (fun c =>
        ⟨c.name ++ "_" ++ agg,
         (distinctKeys (ts.map (bucketOf (ruleWidth r)))).map
           (downAggCell agg ts (ruleWidth r) c)⟩))),
      ∃ b ∈ distinctKeys (ts.map (bucketOf (ruleWidth r))),
        row = Value.int b ::
          (t.columns.filter (fun c => c.name ≠ byc)).map
            (fun c => downAggCell agg ts (ruleWidth r) c b) := by
    intro row hrow
    rw [hrows3] at hrow
    obtain ⟨b, hb, heq⟩ := List.mem_map.mp hrow
    exact ⟨b, hb, heq.symm⟩
  have hsmem : ∀ row ∈ List.insertionSort (keyLE 0)
      (tableRows (Table.mk (⟨byc,
        (distinctKeys (ts.map (bucketOf (ruleWidth r)))).map Value.int⟩ ::
        (t.columns.filter (fun c => c.name ≠ byc)).map (fun c =>
          ⟨c.name ++ "_" ++ agg,
           (distinctKeys (ts.map (bucketOf (ruleWidth r)))).map
             (downAggCell agg ts (ruleWidth r) c)⟩)))),
      ∃ b ∈ distinctKeys (ts.map (bucketOf (ruleWidth r))),
        row = Value.int b ::
          (t.columns.filter (fun c => c.name ≠ byc)).map
            (fun c => downAggCell agg ts (ruleWidth r) c b) :=
    fun row h => hshape row ((List.mem_insertionSort _).mp h)
  have hnames : namesOf (Table.mk (⟨byc,
      (distinctKeys (ts.map (bucketOf (ruleWidth r)))).map Value.int⟩ ::
      (t.columns.filter (fun c => c.name ≠ byc)).map (fun c =>
        ⟨c.name ++ "_" ++ agg,
         (distinctKeys (ts.map (bucketOf (ruleWidth r)))).map
           (downAggCell agg ts (ruleWidth r) c)⟩))) =
      byc :: (t.columns.filter (fun c => c.name ≠ byc)).map
        (fun c => c.name ++ "_" ++ agg) := by
    simp [namesOf, List.map_map]
  have hrows' : tableRows (tableFromRows (namesOf (Table.mk (⟨byc,
      (distinctKeys (ts.map (bucketOf (ruleWidth r)))).map Value.int⟩ ::
      (t.columns.filter (fun c => c.name ≠ byc)).map (fun c =>
        ⟨c.name ++ "_" ++ agg,
         (distinctKeys (ts.map (bucketOf (ruleWidth r)))).map
           (downAggCell agg ts (ruleWidth r) c)⟩))))
      (List.insertionSort (keyLE 0)
        (tableRows (Table.mk (⟨byc,
          (distinctKeys (ts.map (bucketOf (ruleWidth r)))).map Value.int⟩ ::
          (t.columns.filter (fun c => c.name ≠ byc)).map (fun c =>
            ⟨c.name ++ "_" ++ agg,
             (distinctKeys (ts.map (bucketOf (ruleWidth r)))).map
               (downAggCell agg ts (ruleWidth r) c)⟩)))))) =
      List.insertionSort (keyLE 0)
        (tableRows (Table.mk (⟨byc,
          (distinctKeys (ts.map (bucketOf (ruleWidth r)))).map Value.int⟩ ::
          (t.columns.filter (fun c => c.name ≠ byc)).map (fun c =>
            ⟨c.name ++ "_" ++ agg,
             (distinctKeys (ts.map (bucketOf (ruleWidth r)))).map
               (downAggCell agg ts (ruleWidth r) c)⟩)))) := by
    apply tableFromRows_rows
    · rw [hnames]
      simp
    · intro row hrow
      obtain ⟨b, _, rfl⟩ := hsmem row hrow
      rw [hnames]
      simp
  refine ⟨_, hpipe, ?_, ?_⟩
  · refine ⟨(List.insertionSort (keyLE 0)
      (tableRows (Table.mk (⟨byc,
        (distinctKeys (ts.map (bucketOf (ruleWidth r)))).map Value.int⟩ ::
        (t.columns.filter (fun c => c.name ≠ byc)).map (fun c =>
          ⟨c.name ++ "_" ++ agg,
           (distinctKeys (ts.map (bucketOf (ruleWidth r)))).map
             (downAggCell agg ts (ruleWidth r) c)⟩))))).map keyIntAt0,
      ?_, ?_, ?_⟩
    · rw [hnames, tableFromRows_firstCol]
      congr 1
      rw [List.map_map]
      apply List.map_congr_left
      intro row hrow
      obtain ⟨b, _, rfl⟩ := hsmem row hrow
      rfl
    · have hpair := List.sorted_insertionSort (keyLE 0)
        (tableRows (Table.mk (⟨byc,
          (distinctKeys (ts.map (bucketOf (ruleWidth r)))).map Value.int⟩ ::
          (t.columns.filter (fun c => c.name ≠ byc)).map (fun c =>
            ⟨c.name ++ "_" ++ agg,
             (distinctKeys (ts.map (bucketOf (ruleWidth r)))).map
               (downAggCell agg ts (ruleWidth r) c)⟩))))
      refine List.pairwise_map.mpr ?_
      refine List.Pairwise.imp_of_mem ?_ hpair
      intro a b hma hmb hab
      obtain ⟨ba, _, rfl⟩ := hsmem a hma
      obtain ⟨bb, _, rfl⟩ := hsmem b hmb
      simpa [keyLE, rowKeyAt, toIntOpt, optIntLEb, keyIntAt0] using hab
    · have hp1 := List.perm_insertionSort (keyLE 0)
        (tableRows (Table.mk (⟨byc,
          (distinctKeys (ts.map (bucketOf (ruleWidth r)))).map Value.int⟩ ::
          (t.columns.filter (fun c => c.name ≠ byc)).map (fun c =>
            ⟨c.name ++ "_" ++ agg,
             (distinctKeys (ts.map (bucketOf (ruleWidth r)))).map
               (downAggCell agg ts (ruleWidth r) c)⟩))))
      have hp2 := hp1.map keyIntAt0
      refine hp2.trans ?_
      have hcompid : (keyIntAt0 ∘ fun b =>
          Value.int b :: (t.columns.filter (fun c => c.name ≠ byc)).map
            (fun c => downAggCell agg ts (ruleWidth r) c b)) = id :=
        funext (fun b => rfl)
      rw [hrows3, List.map_map, hcompid, List.map_id]
  · intro row hrow
    rw [hrows'] at hrow
    exact hsmem row hrow

/-! ## concrete tables used by the closed theorems -/

def tCb : Table := ⟨[⟨"k", [.int 1]⟩, ⟨"v", [.int 10]⟩]⟩

def tJoinL : Table := ⟨[⟨"k", [.int 1, .int 2]⟩, ⟨"x", [.int 10, .int 20]⟩]⟩

def tJoinR : Table := ⟨[⟨"k", [.int 2, .int 3]⟩, ⟨"y", [.int 200, .int 300]⟩]⟩

def tDup : Table := ⟨[⟨"a", [.int 1, .int 1, .int 2]⟩]⟩

def tOne : Table := ⟨[⟨"a", [.int 1]⟩]⟩

def tDown : Table :=
  ⟨[⟨"time", [.int 3, .int 1, .int 1]⟩, ⟨"v", [.int 5, .int 6, .int 7]⟩]⟩

/-! ## claims -/

/-- C1: the claim says a transform failure surfaces as a typed, recoverable
`CallbackFailed` error.  In the code the per-group closure of `groupby_apply`
hits `panic!("UDF failed: ...")` when the lambda raises: at a concrete
grouping with a failing transform the outcome is a panic — not a typed error
result, and with no `CallbackFailed` or group key anywhere. -/
theorem claim_C1 :
    PyDataFrame.groupby_apply tCb ["k"] (fun _ => .error "boom") =
      .panic "UDF failed: boom" ∧
    (PyDataFrame.groupby_apply tCb ["k"] (fun _ => .error "boom")).isErr
      = false := by
  constructor <;> rfl

/-- C2: the claim says a `how` string outside left/inner/outer yields a typed,
recoverable configuration error.  The source's `join` instead reaches
`panic!("not supported")`: at `how = "cross"` the outcome is a panic and not
an error result. -/
theorem claim_C2 :
    PyDataFrame.join tJoinL tJoinR ["k"] ["k"] "cross" = .panic "not supported" ∧
    (PyDataFrame.join tJoinL tJoinR ["k"] ["k"] "cross").isErr = false := by
  constructor <;> rfl

/-- C3: the claim says the `is_unique` and `is_duplicated` masks are mutually
exclusive.  The binding's `is_duplicated` calls `self.df.is_unique()`, so both
return the identical mask: on `{a: [1, 1, 2]}` both masks are true at row 2. -/
theorem claim_C3 :
    PyDataFrame.is_unique tDup = [false, false, true] ∧
    PyDataFrame.is_duplicated tDup = [false, false, true] ∧
    (PyDataFrame.is_unique tDup).getD 2 false = true ∧
    (PyDataFrame.is_duplicated tDup).getD 2 false = true := by
  refine ⟨?_, ?_, ?_, ?_⟩ <;> decide

/-- C4 counterexample: the claim says an out-of-range index makes `take` fail
with a typed, recoverable `IndexOutOfBounds` result.  The binding's `take`
returns `Self` with no error channel; at a concrete table of height 1 and
index 5 the outcome is a panic and not a typed error result. -/
theorem claim_C4_cex :
    PyDataFrame.take tOne [5] = .panic "take indices are out of bounds" ∧
    (PyDataFrame.take tOne [5]).isErr = false := by
  constructor <;> rfl

/-- C4 amended: an index sequence containing an out-of-range index makes
`take` panic (an unchecked crash, not a typed recoverable result); for
in-range indices — duplicates legal — the output rows are exactly the rows at
the given indices in the sequence's order. -/
theorem claim_C4_amended (t : Table) (ix : List Nat) :
    ((∃ i ∈ ix, t.height ≤ i) →
      PyDataFrame.take t ix = .panic "take indices are out of bounds") ∧
    ((∀ i ∈ ix, i < t.height) →
      ∃ t', PyDataFrame.take t ix = .ok t' ∧
        tableRows t' = ix.map (tableRow t)) := by
  constructor
  · rintro ⟨i, hi, hge⟩
    have hng : ¬ (ix.all (fun j => decide (j < t.height)) = true) := by
      simp only [List.all_eq_true, decide_eq_true_eq]
      push_neg
      exact ⟨i, hi, by omega⟩
    simp only [PyDataFrame.take, coreTake]
    rw [if_neg hng]
  · intro hin
    have hg : ix.all (fun j => decide (j < t.height)) = true := by
      simp only [List.all_eq_true, decide_eq_true_eq]
      exact hin
    refine ⟨_, by simp only [PyDataFrame.take, coreTake]; rw [if_pos hg], ?_⟩
    rcases hc : t.columns with _ | ⟨c, cs⟩
    · have hix : ix = [] := by
        cases ix with
        | nil => rfl
        | cons i ix' =>
          exact absurd (hin i (by simp)) (by simp [Table.height, hc])
      simp [tableRows, Table.height, hc, hix, rowsN]
    · have hht : (Table.mk (t.columns.map
          (fun cc => ⟨cc.name, ix.map (fun i => cc.values.getD i Value.null)⟩))).height
          = ix.length := by
        simp [Table.height, hc]
      have hcv : (Table.mk (t.columns.map
          (fun cc => ⟨cc.name, ix.map (fun i => cc.values.getD i Value.null)⟩))).columns.map
            Column.values
          = (t.columns.map Column.values).map
              (fun vs => ix.map (fun i => vs.getD i Value.null)) := by
        simp [List.map_map]
      rw [tableRows, ← hc, hht, hcv, take_rows]
      apply List.map_congr_left
      intro i _
      simp [tableRow, List.map_map]

/-- C4 witness: the amended theorem at a height-1 table with index 5 (panic
branch), and at a height-2 table with the duplicated index sequence
`[1, 0, 0]` (in-range branch). -/
theorem claim_C4_witness :
    PyDataFrame.take tOne [5] = .panic "take indices are out of bounds" ∧
    (∃ t', PyDataFrame.take tJoinL [1, 0, 0] = .ok t' ∧
      tableRows t' = [1, 0, 0].map (tableRow tJoinL)) :=
  ⟨(claim_C4_amended tOne [5]).1 ⟨5, by decide, by decide⟩,
   (claim_C4_amended tJoinL [1, 0, 0]).2 (by decide)⟩

/-- C5: filtering with a boolean mask of matching length succeeds; the output
rows are exactly the input rows at `true` positions in input order, the output
height is the number of `true` entries, and every output row is a row of the
input. -/
theorem claim_C5 (t : Table) (m : List Bool) (hw : WellFormed t)
    (hm : m.length = t.height) :
    ∃ t', PyDataFrame.filter t (m.map Value.bool) = .ok t' ∧
      tableRows t' = maskSelect (tableRows t) m ∧
      t'.height = countTrue m ∧
      ∀ r ∈ tableRows t', r ∈ tableRows t := by
  have hcf : coreFilter t m =
      .ok ⟨t.columns.map (fun c => ⟨c.name, applyMask c.values m⟩)⟩ := by
    simp [coreFilter, hm]
  have hcols : (Table.mk (t.columns.map
      (fun c => ⟨c.name, applyMask c.values m⟩))).columns.map Column.values
      = (t.columns.map Column.values).map
          (fun vs => (trueIdxs m).map (fun i => vs.getD i Value.null)) := by
    simp only [List.map_map]
    apply List.map_congr_left
    intro c hc
    simpa [applyMask] using
      selectG Value.null c.values m ((hw c hc).trans hm.symm)
  have hh : (Table.mk (t.columns.map
      (fun c => ⟨c.name, applyMask c.values m⟩))).height = countTrue m := by
    rcases hcase : t.columns with _ | ⟨c, cs⟩
    · have hm0 : m = [] :=
        List.length_eq_zero.mp (by rw [hm]; simp [Table.height, hcase])
      simp [Table.height, hcase, hm0, countTrue]
    · have hcmem : c ∈ t.columns := by
        rw [hcase]
        exact List.mem_cons_self c cs
      have h1 : applyMask c.values m =
          (trueIdxs m).map (fun i => c.values.getD i Value.null) := by
        simpa [applyMask] using
          selectG Value.null c.values m ((hw c hcmem).trans hm.symm)
      simp [Table.height, hcase, h1, trueIdxs_length]
  have hrows : tableRows (Table.mk (t.columns.map
      (fun c => ⟨c.name, applyMask c.values m⟩)))
      = maskSelect (tableRows t) m := by
    rw [tableRows, hh, hcols, ← trueIdxs_length, take_rows, maskSelect,
      selectG ([] : Row) (tableRows t) m ((tableRows_length t).trans hm.symm)]
    apply List.map_congr_left
    intro i hi
    have hi' := hi
    rw [trueIdxs] at hi'
    have hilt : i < t.height := by
      rw [← hm]
      exact List.mem_range.mp (List.mem_filter.mp hi').1
    rw [tableRows, rowsN_getD hilt]
  refine ⟨_, ?_, hrows, hh, ?_⟩
  · simp only [PyDataFrame.filter, asBoolMask_map]
    rw [hcf]
    rfl
  · intro r hr
    rw [hrows, maskSelect] at hr
    rcases List.mem_filterMap.mp hr with ⟨⟨a, b⟩, hp, hab⟩
    cases b
    · simp at hab
    · simp only [if_true] at hab
      have ha : a = r := by simpa using hab
      exact ha ▸ (List.of_mem_zip hp).1

/-- C5 witness: the theorem at a concrete two-row table and mask. -/
theorem claim_C5_witness :
    ∃ t', PyDataFrame.filter tJoinL ([true, false].map Value.bool) = .ok t' ∧
      tableRows t' = maskSelect (tableRows tJoinL) [true, false] ∧
      t'.height = countTrue [true, false] ∧
      ∀ r ∈ tableRows t', r ∈ tableRows tJoinL :=
  claim_C5 tJoinL [true, false] (by decide) (by decide)

/-- C6: `take` with the identity index sequence `[0 .. height)` returns the
table unchanged. -/
theorem claim_C6 (t : Table) (hw : WellFormed t) :
    PyDataFrame.take t (List.range t.height) = .ok t := by
  have hg : (List.range t.height).all (fun j => decide (j < t.height)) = true := by
    simp [List.all_eq_true]
  simp only [PyDataFrame.take, coreTake]
  rw [if_pos hg]
  have hcols : t.columns.map
      (fun c => ⟨c.name, (List.range t.height).map
        (fun i => c.values.getD i Value.null)⟩) = t.columns := by
    conv_rhs => rw [← List.map_id t.columns]
    apply List.map_congr_left
    intro c hc
    have hl : c.values.length = t.height := hw c hc
    have : (List.range c.values.length).map
        (fun i => c.values.getD i Value.null) = c.values := by
      simpa using range_map_getD c.values Value.null id
    rw [← hl, this]
    rfl
  rw [hcols]

/-- C6 witness: the identity take on a concrete two-row table. -/
theorem claim_C6_witness :
    PyDataFrame.take tJoinL (List.range tJoinL.height) = .ok tJoinL :=
  claim_C6 tJoinL (by decide)

/-- C7: for every supported rule string, window multiple, and supported
aggregation name, `downsample` on an integer time column succeeds; the output
key column holds exactly the distinct bucket boundaries (each time value
rounded down to a multiple of `n` times the rule unit) sorted ascending, and
every output row is one bucket's boundary followed by the aggregation of each
other column over exactly that bucket's rows. -/
theorem claim_C7 (t : Table) (byc rule agg : String) (n : Nat) (ts : List Int)
    (hw : WellFormed t)
    (hr : rule ∈ (["second", "minute", "day", "hour"] : List String))
    (ha : agg ∈ validAggs)
    (hcol : colValuesFirst t byc = some (ts.map Value.int)) :
    ∃ t', PyDataFrame.downsample t byc rule n agg = .ok t' ∧
      (∃ os : List Int,
        colValuesFirst t' byc = some (os.map Value.int) ∧
        os.Sorted (· ≤ ·) ∧
        os.Perm (distinctKeys (ts.map (bucketOf (widthOf rule n))))) ∧
      (∀ row ∈ tableRows t',
        ∃ b ∈ distinctKeys (ts.map (bucketOf (widthOf rule n))),
          row = Value.int b ::
            (t.columns.filter (fun c => c.name ≠ byc)).map
              (fun c => downAggCell agg ts (widthOf rule n) c b)) := by
  fin_cases hr
  · simpa [widthOf, ruleWidth] using
      downsample_ok t byc "second" agg n (.Second n) ts rfl hw ha hcol
  · simpa [widthOf, ruleWidth] using
      downsample_ok t byc "minute" agg n (.Minute n) ts rfl hw ha hcol
  · simpa [widthOf, ruleWidth] using
      downsample_ok t byc "day" agg n (.Day n) ts rfl hw ha hcol
  · simpa [widthOf, ruleWidth] using
      downsample_ok t byc "hour" agg n (.Hour n) ts rfl hw ha hcol

/-- C7 witness: downsample of a concrete two-column table over two-second
windows with the `sum` aggregation. -/
theorem claim_C7_witness :
    ∃ t', PyDataFrame.downsample tDown "time" "second" 2 "sum" = .ok t' ∧
      (∃ os : List Int,
        colValuesFirst t' "time" = some (os.map Value.int) ∧
        os.Sorted (· ≤ ·) ∧
        os.Perm (distinctKeys (([3, 1, 1] : List Int).map
          (bucketOf (widthOf "second" 2))))) ∧
      (∀ row ∈ tableRows t',
        ∃ b ∈ distinctKeys (([3, 1, 1] : List Int).map
          (bucketOf (widthOf "second" 2))),
          row = Value.int b ::
            (tDown.columns.filter (fun c => c.name ≠ "time")).map
              (fun c => downAggCell "sum" [3, 1, 1] (widthOf "second" 2) c b)) :=
  claim_C7 tDown "time" "second" "sum" 2 [3, 1, 1]
    (by decide) (by decide) (by decide) (by decide)

/-- C8: with a valid grouping, a quantile parameter outside `[0, 1]` makes
both the grouped and the whole-table quantile fail with `InvalidArgument`. -/
theorem claim_C8 (t : Table) (keys select : List String) (p : Rat)
    (hby : keys.all (hasCol t) = true) (hp : p < 0 ∨ 1 < p) :
    PyDataFrame.groupby_quantile t keys select p = .err .InvalidArgument ∧
    PyDataFrame.quantile t p = .err .InvalidArgument := by
  constructor
  · simp [PyDataFrame.groupby_quantile, coreGroupBy, hby, gbQuantile, hp, outOf]
  · simp [PyDataFrame.quantile, coreQuantileDf, hp, outOf]

/-- C8 witness: the theorem at a concrete table, grouping key `k`, selection
`x`, and `p = 2`. -/
theorem claim_C8_witness :
    PyDataFrame.groupby_quantile tJoinL ["k"] ["x"] 2 = .err .InvalidArgument ∧
    PyDataFrame.quantile tJoinL 2 = .err .InvalidArgument :=
  claim_C8 tJoinL ["k"] ["x"] 2 (by decide) (Or.inr (by norm_num))

/-- C10: with a valid grouping, `groupby` dispatches successfully exactly for
the thirteen supported aggregation names — including `groups` and `agg_list` —
and any other string yields the typed error `agg fn ... does not exists`
(a recoverable result, not a panic). -/
theorem claim_C10 (t : Table) (keys : List String) (agg : String)
    (hby : keys.all (hasCol t) = true) :
    (agg ∈ validAggs →
      ∃ t', PyDataFrame.groupby t keys none agg = .ok t') ∧
    (agg ∉ validAggs →
      PyDataFrame.groupby t keys none agg =
        .err (.Other ("agg fn " ++ agg ++ " does not exists"))) := by
  have hgb : coreGroupBy t keys =
      .ok ⟨t, keys, none, computeGroups (keyList t keys) []⟩ := by
    simp [coreGroupBy, hby]
  constructor
  · intro hmem
    simp only [validAggs] at hmem
    fin_cases hmem <;>
      exact ⟨_, by simp only [PyDataFrame.groupby, hgb]; rfl⟩
  · intro hmem
    simp only [PyDataFrame.groupby, hgb]
    unfold finish_groupby
    split <;> simp_all [validAggs, outOf]

/-- C10 witness: the theorem at a concrete table with the in-set name `sum`
and the out-of-set name `frobnicate`. -/
theorem claim_C10_witness :
    (∃ t', PyDataFrame.groupby tJoinL ["k"] none "sum" = .ok t') ∧
    PyDataFrame.groupby tJoinL ["k"] none "frobnicate" =
      .err (.Other ("agg fn " ++ "frobnicate" ++ " does not exists")) :=
  ⟨(claim_C10 tJoinL ["k"] "sum" (by decide)).1 (by decide),
   (claim_C10 tJoinL ["k"] "frobnicate" (by decide)).2 (by decide)⟩

end PolarsSpec
